import Mathlib

/-!
Shallow embedding of the `check_suite.completed` handler of dependabot-steward
(`src/app.ts`, registered by `appFn`).  The handler is a single async function
over GitHub API data; we model the data it fetches as a `World` record and the
handler itself as the pure function `stewardEval`, which returns the outcome
(veto / allow / propagated fatal error) together with the ordered list of
mutating API calls performed (comment creation, approving review, merge).
-/

namespace Steward

/-- GitHub ID for the Dependabot bot (`dependabotUserId` in `app.ts`). -/
def dependabotUserId : Nat := 49699333

/-- GitHub ID for the Steward bot itself (`stewardUserId` in `app.ts`). -/
def stewardUserId : Nat := 241759641

/-- The fixed catalog of Dependabot ecosystems (`ecosystems` in `app.ts`),
in source order (order matters for `Array.prototype.find`). -/
def ecosystems : List String :=
  ["bazel", "bun", "bundler", "cargo", "composer", "conda", "devcontainers",
   "docker", "docker_compose", "dotnet_sdk", "elm", "git_submodules",
   "github_actions", "go_modules", "gradle", "helm", "hex", "julia", "maven",
   "npm_and_yarn", "nuget", "pub", "python", "rust_toolchain", "swift",
   "terraform", "uv", "vcpkg"]

/-- Is `needle` a contiguous sublist of `hay`?  Used to model JavaScript
`String.prototype.includes`. -/
def containsSeq (needle hay : List Char) : Bool :=
  needle.isPrefixOf hay ||
    match hay with
    | [] => false
    | _ :: t => containsSeq needle t

/-- JavaScript `s.includes(sub)` on strings. -/
def jsIncludes (s sub : String) : Bool :=
  containsSeq sub.toList s.toList

/-- JavaScript `content.replaceAll('\n', '')`. -/
def stripNewlines (s : String) : String :=
  String.mk (s.toList.filter (fun c => c != '\n'))

/-- Repository metadata from `GET /repos/{owner}/{repo}` (the fields read by
the handler). -/
structure RepoMetadata where
  allow_merge_commit : Bool
  allow_squash_merge : Bool
  allow_rebase_merge : Bool
  deriving DecidableEq

/-- The three GitHub merge methods. -/
inductive MergeMethod where
  | merge
  | squash
  | rebase
  deriving DecidableEq

/-- The `merge_method` selection at the top of the handler: first-true of
`allow_merge_commit`, `allow_squash_merge`, `allow_rebase_merge`; `none`
models the `throw new Error('No allowed merge method found ...')`. -/
def resolveMergeMethod (m : RepoMetadata) : Option MergeMethod :=
  if m.allow_merge_commit then some .merge
  else if m.allow_squash_merge then some .squash
  else if m.allow_rebase_merge then some .rebase
  else none

/-- A pull request entry of the webhook payload's `check_suite.pull_requests`
array (the fields read by the handler). -/
structure PayloadPR where
  number : Nat
  head_ref : String
  head_repo_id : Nat
  base_ref : String
  base_repo_id : Nat
  deriving DecidableEq

/-- One review from `GET .../pulls/{n}/reviews`; `user_id` models `r.user?.id`
(`none` when `user` is null). -/
structure Review where
  user_id : Option Nat
  deriving DecidableEq

/-- One issue comment from `GET .../issues/{n}/comments`; `user_id` models
`c.user?.id`. -/
structure Comment where
  user_id : Option Nat
  deriving DecidableEq

/-- The pull request data from `GET .../pulls/{n}` (fields read). -/
structure PRData where
  merged : Bool
  user_id : Nat
  deriving DecidableEq

/-- One check run from the `GET {check_runs_url}` response; `conclusion` is
`none` for JSON null. -/
structure CheckRun where
  name : String
  conclusion : Option String
  deriving DecidableEq

/-- One check suite from `GET .../commits/{sha}/check-suites`, together with
the check runs that `GET {check_runs_url}` returns for it. -/
structure CheckSuite where
  status : String
  latest_check_runs_count : Nat
  check_runs : List CheckRun
  deriving DecidableEq

/-- The `listSuitesForRef` response shape: `total_count` plus the suite list. -/
structure SuitesResponse where
  total_count : Nat
  check_suites : List CheckSuite
  deriving DecidableEq

/-- One branch rule from `GET .../rules/branches/{branch}`; `parameters`
models `r.parameters?.required_status_checks` mapped to the rule contexts
(`none` when `parameters` is absent). -/
structure BranchRule where
  type : String
  parameters : Option (List String)
  deriving DecidableEq

/-- A JSON value, used for the raw `GET .../contents/.steward.yml` body that
`RepoContentSchema.parse` validates. -/
inductive Json where
  | null
  | bool (b : Bool)
  | num (n : Int)
  | str (s : String)
  | arr (elems : List Json)
  | obj (fields : List (String × Json))

/-- A YAML document value as produced by `yaml.parse` (a JavaScript value). -/
inductive Yaml where
  | null
  | bool (b : Bool)
  | num (n : Int)
  | str (s : String)
  | arr (elems : List Yaml)
  | map (fields : List (String × Yaml))

/-- Result of the base64-decode / `yaml.parse` pipeline applied to the file
content: `badBase64` models `z.base64().parse` raising a `ZodError`,
`yamlError` models `yaml.parse` raising (a non-Zod error), `value v` the
parsed document. -/
inductive DecodeOutcome where
  | badBase64
  | yamlError
  | value (v : Yaml)

/-- Result of `octokit.repos.getContent` for `.steward.yml`: a 404 error, any
other request error, or a response body. -/
inductive ContentResult where
  | http404
  | httpOther
  | data (j : Json)

/-- A mutating GitHub API call made by the handler. -/
inductive Call where
  | createComment (pull_number : Nat) (body : String)
  | createReview (pull_number : Nat)
  | mergePR (pull_number : Nat) (m : MergeMethod)
  deriving DecidableEq

/-- The distinct `return false` sites of the inner IIFE, distinguished in the
source only by their log messages. -/
inductive Veto where
  | noAssociatedPR
  | forkPR
  | alreadyReviewed
  | alreadyMerged
  | notFromBot
  | notAFile
  | caughtError
  | globallyDisabled
  | ecosystemDisabled
  | checksPending
  | checksFailed
  deriving DecidableEq

/-- Errors that escape the handler (uncaught `throw`, or a rejected awaited
call outside any `try`). -/
inductive Fatal where
  | noAllowedMergeMethod
  | pullNumberUndefined
  | approveFailed
  deriving DecidableEq

/-- The handler's overall outcome. -/
inductive Outcome where
  | vetoed (v : Veto)
  | allowed
  | fatal (f : Fatal)
  deriving DecidableEq

/-- The handler's outcome plus the ordered mutating API calls it issued. -/
structure EvalResult where
  outcome : Outcome
  calls : List Call
  deriving DecidableEq

/-- All external data one evaluation can observe, plus whether the approving
review and the merge calls succeed. -/
structure World where
  repoMeta : RepoMetadata
  pull_requests : List PayloadPR
  reviews : List Review
  prData : PRData
  comments : List Comment
  content : ContentResult
  decode : String → DecodeOutcome
  suites : SuitesResponse
  branchRules : List BranchRule
  approveSucceeds : Bool
  mergeSucceeds : Bool

/-- JavaScript truthiness of a YAML-produced value (`NaN` is not produced by
the integer model). -/
def yamlTruthy : Yaml → Bool
  | .null => false
  | .bool b => b
  | .num n => n != 0
  | .str s => s != ""
  | .arr _ => true
  | .map _ => true

/-- First-match lookup in a YAML mapping. -/
def lookupKey (fields : List (String × Yaml)) (k : String) : Option Yaml :=
  (fields.find? (fun p => p.1 == k)).map (fun p => p.2)

/-- JavaScript property access `v[k]` where `v` may be `null`: `none` models a
thrown `TypeError`, `some none` models `undefined`, `some (some y)` a value. -/
def getPropNullable : Yaml → String → Option (Option Yaml)
  | .null, _ => none
  | .map fs, k => some (lookupKey fs k)
  | _, _ => some none

/-- JavaScript property access `v[k]` for a value already known non-null:
`none` models `undefined`. -/
def getProp : Yaml → String → Option Yaml
  | .map fs, k => lookupKey fs k
  | _, _ => none

/-- First-match lookup in a JSON object. -/
def lookupJson (fields : List (String × Json)) (k : String) : Option Json :=
  (fields.find? (fun p => p.1 == k)).map (fun p => p.2)

/-- The check `RepoContentSchema.parse`: the body must be an object with `type` one of
the four literals, `content` a string and `encoding` the literal `base64`;
`none` models the thrown `ZodError`. -/
def repoContentParse : Json → Option (String × String)
  | .obj fields =>
    match lookupJson fields "type", lookupJson fields "content",
        lookupJson fields "encoding" with
    | some (.str t), some (.str c), some (.str e) =>
      if (t == "file" || t == "dir" || t == "submodule" || t == "symlink")
          && e == "base64" then
        some (t, c)
      else none
    | _, _, _ => none
  | _ => none

/-- The advisory comment body built from the template literal
`Configuration invalid: \`${stewardYmlFileName}\` must be a file.` -/
def notAFileBody : String := "Configuration invalid: `.steward.yml` must be a file."

/-- The `if (!hasComment) octokit.issues.createComment(...)` guard around the
advisory comment. -/
def commentCalls (hasComment : Bool) (pn : Nat) : List Call :=
  if hasComment then [] else [.createComment pn notAFileBody]

/-- Result of the configuration `try`/`catch` region: either a `return false`
(with the comment calls it issued) or fall-through to the check-status part. -/
inductive ConfigStep where
  | halt (v : Veto) (calls : List Call)
  | cont

/-- The `try { getContent ... } catch { ... }` region of the handler, lines
178-248 of `app.ts`:
* 404 → log and continue;
* response failing `RepoContentSchema` (`ZodError`) → "not a file" comment
  path, `return false`;
* `type !== 'file'` → same comment path, `return false`;
* `z.base64()` failure (`ZodError`) → same comment path, `return false`;
* `yaml.parse` failure (not a `ZodError`) → caught by the final `else`,
  logged, `return false`;
* `stewardYml.enable` present and falsy → `return false` (disabled);
* property access on a `null` document throws a `TypeError`, caught by the
  final `else`, `return false`;
* no catalog ecosystem is a substring of the head branch → `throw`, caught by
  the final `else`, `return false`;
* per-ecosystem `enable` present and falsy → `return false` (disabled);
* any other fetch error → caught by the final `else`, logged, `return false`. -/
def configPhase (content : ContentResult) (decode : String → DecodeOutcome)
    (headBranch : String) (hasComment : Bool) (pn : Nat) : ConfigStep :=
  match content with
  | .http404 => .cont
  | .httpOther => .halt .caughtError []
  | .data j =>
    match repoContentParse j with
    | none => .halt .notAFile (commentCalls hasComment pn)
    | some (typ, c) =>
      if typ != "file" then .halt .notAFile (commentCalls hasComment pn)
      else
        match decode (stripNewlines c) with
        | .badBase64 => .halt .notAFile (commentCalls hasComment pn)
        | .yamlError => .halt .caughtError []
        | .value v =>
          match getPropNullable v "enable" with
          | none => .halt .caughtError []
          | some enableOpt =>
            if enableOpt.any (fun y => !yamlTruthy y) then
              .halt .globallyDisabled []
            else
              match ecosystems.find? (fun e => jsIncludes headBranch e) with
              | none => .halt .caughtError []
              | some eco =>
                match getProp v eco with
                | none => .cont
                | some te =>
                  if yamlTruthy te then
                    match getProp te "enable" with
                    | none => .cont
                    | some ev =>
                      if yamlTruthy ev then .cont
                      else .halt .ecosystemDisabled []
                  else .cont

/-- Three-valued result of the check-status part (lines 250-324): pass,
pending (some valid suite not completed) or fail (a required check missing). -/
inductive AggOutcome where
  | pass
  | pending
  | fail
  deriving DecidableEq

/-- The required-status-check contexts collected from the branch rules
(`filter(type == 'required_status_checks').flatMap(parameters ...)`). -/
def requiredRuleContexts (rules : List BranchRule) : List String :=
  (rules.filter (fun r => r.type == "required_status_checks")).flatMap
    (fun r => r.parameters.getD [])

/-- Does a check-run conclusion count as passed
(`success`, `skipped` or `neutral`)? -/
def passedConclusion (c : Option String) : Bool :=
  c == some "success" || c == some "skipped" || c == some "neutral"

/-- The check-status part of the handler (lines 250-324 of `app.ts`), as a
function of the suites response and the branch rules. -/
def aggregate (suites : SuitesResponse) (rules : List BranchRule) : AggOutcome :=
  if suites.total_count == 0 then .pass
  else
    let validSuites := suites.check_suites.filter
      (fun cs => cs.latest_check_runs_count > 0)
    if validSuites.length == 0 then .pass
    else if validSuites.any (fun cs => cs.status != "completed") then .pending
    else
      let requiredChecks := requiredRuleContexts rules
      if requiredChecks.length == 0 then .pass
      else
        let passedChecks := (validSuites.map (fun vs =>
          (vs.check_runs.filter
            (fun cr => passedConclusion cr.conclusion)).map
              (fun cr => cr.name))).flatten
        if requiredChecks.all (fun rc => passedChecks.contains rc) then .pass
        else .fail

/-- The `(stewardYml.some(...))` review guard condition. -/
def stewardReviewExists (w : World) : Bool :=
  w.reviews.any (fun r => r.user_id == some stewardUserId)

/-- The `hasComment` flag read from the issue comments. -/
def hasStewardComment (w : World) : Bool :=
  w.comments.any (fun c => c.user_id == some stewardUserId)

/-- Verdict of the inner IIFE: its boolean result, with `return false` sites
distinguished. -/
inductive InnerVerdict where
  | pass
  | vetoed (v : Veto)
  deriving DecidableEq

/-- Output of the inner IIFE: its verdict, the value of the outer
`pull_number` variable after it runs, and the calls it issued. -/
structure InnerOut where
  verdict : InnerVerdict
  pull_number : Option Nat
  calls : List Call

/-- The inner async IIFE (`processMerge`, lines 131-325 of `app.ts`):
`pull_requests.pop()` yields the last payload PR; then the fork check, the
steward-review check, the merged check, the author check, the configuration
region and the check-status part run in that order, each `return false`
short-circuiting. -/
def processMergeFn (w : World) : InnerOut :=
  match w.pull_requests.getLast? with
  | none => ⟨.vetoed .noAssociatedPR, none, []⟩
  | some pr =>
    if pr.base_repo_id != pr.head_repo_id then ⟨.vetoed .forkPR, none, []⟩
    else if stewardReviewExists w then
      ⟨.vetoed .alreadyReviewed, some pr.number, []⟩
    else if w.prData.merged then ⟨.vetoed .alreadyMerged, some pr.number, []⟩
    else if w.prData.user_id != dependabotUserId then
      ⟨.vetoed .notFromBot, some pr.number, []⟩
    else
      match configPhase w.content w.decode pr.head_ref (hasStewardComment w)
          pr.number with
      | .halt v cs => ⟨.vetoed v, some pr.number, cs⟩
      | .cont =>
        match aggregate w.suites w.branchRules with
        | .pass => ⟨.pass, some pr.number, []⟩
        | .pending => ⟨.vetoed .checksPending, some pr.number, []⟩
        | .fail => ⟨.vetoed .checksFailed, some pr.number, []⟩

/-- The whole `check_suite.completed` handler: merge-method resolution first
(throwing if no method is allowed), then the inner IIFE, then — on a true
result — the `if (!pull_number) throw` type-safety check, the approving
review (whose failure propagates) and the merge attempt (whose failure is
caught, so the outcome stays `allowed` either way). -/
def stewardEval (w : World) : EvalResult :=
  match resolveMergeMethod w.repoMeta with
  | none => ⟨.fatal .noAllowedMergeMethod, []⟩
  | some mm =>
    let inner := processMergeFn w
    match inner.verdict with
    | .vetoed v => ⟨.vetoed v, inner.calls⟩
    | .pass =>
      match inner.pull_number with
      | none => ⟨.fatal .pullNumberUndefined, inner.calls⟩
      | some pn =>
        if pn == 0 then ⟨.fatal .pullNumberUndefined, inner.calls⟩
        else if w.approveSucceeds then
          ⟨.allowed, inner.calls ++ [.createReview pn, .mergePR pn mm]⟩
        else ⟨.fatal .approveFailed, inner.calls ++ [.createReview pn]⟩

/-- Effect of one mutating call on the world: a posted comment or review is
authored by the steward account, a successful merge marks the PR merged. -/
def applyCall (w : World) : Call → World
  | .createComment _ _ => { w with comments := w.comments ++ [⟨some stewardUserId⟩] }
  | .createReview _ => { w with reviews := w.reviews ++ [⟨some stewardUserId⟩] }
  | .mergePR _ _ =>
    if w.mergeSucceeds then { w with prData := { w.prData with merged := true } }
    else w

/-- Effect of a call sequence on the world. -/
def applyCalls (w : World) (cs : List Call) : World :=
  cs.foldl applyCall w

/-- Guard 6 of the spec's guard table ("configuration enablement"): the
configuration region falls through instead of returning false. -/
def configGuardPasses (w : World) (pr : PayloadPR) : Bool :=
  match configPhase w.content w.decode pr.head_ref (hasStewardComment w)
      pr.number with
  | .cont => true
  | .halt _ _ => false

/-- Reference definition, following the spec's guard table (§4.3): the
1-based index of the first failing guard among the seven, `none` when all
pass.  Guards in order: attached PR, same-repo, no steward review, not
merged, Dependabot author, configuration enablement, check status. -/
def firstFailingGuard (w : World) : Option Nat :=
  match w.pull_requests.getLast? with
  | none => some 1
  | some pr =>
    if pr.base_repo_id != pr.head_repo_id then some 2
    else if stewardReviewExists w then some 3
    else if w.prData.merged then some 4
    else if w.prData.user_id != dependabotUserId then some 5
    else if !configGuardPasses w pr then some 6
    else
      match aggregate w.suites w.branchRules with
      | .pass => none
      | .pending => some 7
      | .fail => some 7

/-- The guard (1-7) each veto reason belongs to. -/
def vetoGuard : Veto → Nat
  | .noAssociatedPR => 1
  | .forkPR => 2
  | .alreadyReviewed => 3
  | .alreadyMerged => 4
  | .notFromBot => 5
  | .notAFile => 6
  | .caughtError => 6
  | .globallyDisabled => 6
  | .ecosystemDisabled => 6
  | .checksPending => 7
  | .checksFailed => 7

/-- Is this call an approving review or a merge? -/
def isReviewOrMerge : Call → Bool
  | .createComment _ _ => false
  | .createReview _ => true
  | .mergePR _ _ => true

/-- Is this call a comment creation? -/
def isCommentCall : Call → Bool
  | .createComment _ _ => true
  | .createReview _ => false
  | .mergePR _ _ => false

/-- The pull-request number a call addresses. -/
def callNumber : Call → Nat
  | .createComment pn _ => pn
  | .createReview pn => pn
  | .mergePR pn _ => pn

/-- The names of check runs, drawn from the given suites, whose conclusion is
success, skipped or neutral. -/
def passedNames (validSuites : List CheckSuite) : List String :=
  ((validSuites.flatMap (fun vs => vs.check_runs)).filter
    (fun cr => passedConclusion cr.conclusion)).map (fun cr => cr.name)

/-- Reference aggregation exactly as claim C2 words it, clause by clause in
the claim's order: no suites, or no valid suite, or no required rule → Pass;
some valid suite not completed → Pending; otherwise Pass iff every required
name appears among the passed run names. -/
def aggregateClaim (suites : SuitesResponse) (rules : List BranchRule) :
    AggOutcome :=
  let validSuites := suites.check_suites.filter
    (fun cs => cs.latest_check_runs_count > 0)
  let requiredChecks := requiredRuleContexts rules
  if suites.total_count == 0 || validSuites.length == 0
      || requiredChecks.length == 0 then .pass
  else if validSuites.any (fun cs => cs.status != "completed") then .pending
  else if requiredChecks.all
      (fun rc => (passedNames validSuites).contains rc) then .pass
  else .fail

/-- The aggregation reference with the ordering the code actually uses: the
Pending test precedes the no-required-rule test; everything else as in C2. -/
def aggregateAmendedRef (suites : SuitesResponse) (rules : List BranchRule) :
    AggOutcome :=
  let validSuites := suites.check_suites.filter
    (fun cs => cs.latest_check_runs_count > 0)
  let requiredChecks := requiredRuleContexts rules
  if suites.total_count == 0 || validSuites.length == 0 then .pass
  else if validSuites.any (fun cs => cs.status != "completed") then .pending
  else if requiredChecks.length == 0 then .pass
  else if requiredChecks.all
      (fun rc => (passedNames validSuites).contains rc) then .pass
  else .fail

/-- A well-formed API response for a `.steward.yml` regular file. -/
def fileJson : Json :=
  .obj [("type", .str "file"), ("content", .str "Zm9v"), ("encoding", .str "base64")]

/-- A concrete world in which every guard passes: a single Dependabot pull
request on an `npm_and_yarn` branch, no prior review or comment, a config
file whose parsed document is `enable: "yes"` (a non-boolean string), no
check suites, merge commits allowed. -/
def happyWorld : World where
  repoMeta := ⟨true, false, false⟩
  pull_requests := [⟨1, "dependabot/npm_and_yarn/foo", 10, "main", 10⟩]
  reviews := []
  prData := ⟨false, 49699333⟩
  comments := []
  content := .data fileJson
  decode := fun _ => .value (.map [("enable", .str "yes")])
  suites := ⟨0, []⟩
  branchRules := []
  approveSucceeds := true
  mergeSucceeds := true

/-- Like `happyWorld` but the config fetch fails with a non-404 error. -/
def fetchErrorWorld : World :=
  { happyWorld with content := .httpOther }

/-- Like `happyWorld` but the head branch matches no catalog ecosystem and the
config document is the empty mapping. -/
def ecosystemMissWorld : World :=
  { happyWorld with
    pull_requests := [⟨1, "update-stuff", 10, "main", 10⟩],
    decode := fun _ => .value (.map []) }

/-- A world whose repository allows none of the three merge methods. -/
def noMethodWorld : World :=
  { happyWorld with repoMeta := ⟨false, false, false⟩, pull_requests := [] }




/-- Every `return false` of the configuration region belongs to guard 6. -/
lemma configPhase_halt_veto {content : ContentResult}
    {dec : String → DecodeOutcome} {hb : String} {hc : Bool} {pn : Nat}
    {v : Veto} {cs : List Call}
    (h : configPhase content dec hb hc pn = .halt v cs) : vetoGuard v = 6 := by
  unfold configPhase at h
  repeat' split at h
  all_goals cases h
  all_goals rfl

/-- The configuration region posts at most the single "not a file" advisory
comment, and only when no steward comment exists yet. -/
lemma configPhase_halt_calls {content : ContentResult}
    {dec : String → DecodeOutcome} {hb : String} {hc : Bool} {pn : Nat}
    {v : Veto} {cs : List Call}
    (h : configPhase content dec hb hc pn = .halt v cs) :
    cs = [] ∨ (hc = false ∧ cs = [.createComment pn notAFileBody]) := by
  unfold configPhase at h
  repeat' split at h
  all_goals cases h
  all_goals (cases hc <;> simp [commentCalls])





/-- The inner IIFE's verdict matches the spec's ordered guard table: a pass
means no guard fails, a veto means the first failing guard is the veto's. -/
lemma firstFailingGuard_eq (w : World) :
    firstFailingGuard w =
      (match (processMergeFn w).verdict with
        | .pass => none
        | .vetoed v => some (vetoGuard v)) := by
  unfold firstFailingGuard processMergeFn configGuardPasses
  cases hl : w.pull_requests.getLast? with
  | none => rfl
  | some pr =>
    cases h2 : pr.base_repo_id != pr.head_repo_id with
    | true => simp_all [vetoGuard]
    | false =>
      cases h3 : stewardReviewExists w with
      | true => simp_all [vetoGuard]
      | false =>
        cases h4 : w.prData.merged with
        | true => simp_all [vetoGuard]
        | false =>
          cases h5 : w.prData.user_id != dependabotUserId with
          | true => simp_all [vetoGuard]
          | false =>
            cases hcp : configPhase w.content w.decode pr.head_ref
                (hasStewardComment w) pr.number with
            | halt v cs => simp_all [configPhase_halt_veto hcp]
            | cont =>
              cases ha : aggregate w.suites w.branchRules <;>
                simp_all [vetoGuard]





/-- The inner IIFE issues at most the single advisory comment, on the popped
pull request, and only when no steward comment exists yet. -/
lemma processMergeFn_calls (w : World) :
    (processMergeFn w).calls = [] ∨
      (hasStewardComment w = false ∧ ∃ pr, w.pull_requests.getLast? = some pr ∧
        (processMergeFn w).calls = [.createComment pr.number notAFileBody]) := by
  unfold processMergeFn
  cases hl : w.pull_requests.getLast? with
  | none => exact Or.inl rfl
  | some pr =>
    cases h2 : pr.base_repo_id != pr.head_repo_id with
    | true => simp_all
    | false =>
      cases h3 : stewardReviewExists w with
      | true => simp_all
      | false =>
        cases h4 : w.prData.merged with
        | true => simp_all
        | false =>
          cases h5 : w.prData.user_id != dependabotUserId with
          | true => simp_all
          | false =>
            cases hcp : configPhase w.content w.decode pr.head_ref
                (hasStewardComment w) pr.number with
            | cont => cases ha : aggregate w.suites w.branchRules <;> simp_all
            | halt v cs =>
              rcases configPhase_halt_calls hcp with hC | ⟨hhc, hcs⟩
              · simp_all
              · right
                exact ⟨hhc, pr, rfl, by simp_all⟩

/-- Inversion of an `allowed` outcome: all seven guards passed, the approval
succeeded, and the calls are exactly the approving review followed by the
merge, both on the popped pull request. -/
lemma stewardEval_allowed (w : World) (h : (stewardEval w).outcome = .allowed) :
    ∃ pr mm, resolveMergeMethod w.repoMeta = some mm
      ∧ w.pull_requests.getLast? = some pr
      ∧ (pr.base_repo_id != pr.head_repo_id) = false
      ∧ stewardReviewExists w = false
      ∧ w.prData.merged = false
      ∧ (w.prData.user_id != dependabotUserId) = false
      ∧ configPhase w.content w.decode pr.head_ref (hasStewardComment w)
          pr.number = .cont
      ∧ aggregate w.suites w.branchRules = .pass
      ∧ (pr.number == 0) = false
      ∧ w.approveSucceeds = true
      ∧ stewardEval w =
          ⟨.allowed, [.createReview pr.number, .mergePR pr.number mm]⟩ := by
  unfold stewardEval processMergeFn at h ⊢
  cases hm : resolveMergeMethod w.repoMeta with
  | none => simp_all
  | some mm =>
    cases hl : w.pull_requests.getLast? with
    | none => simp_all
    | some pr =>
      cases h2 : pr.base_repo_id != pr.head_repo_id with
      | true => simp_all
      | false =>
        cases h3 : stewardReviewExists w with
        | true => simp_all
        | false =>
          cases h4 : w.prData.merged with
          | true => simp_all
          | false =>
            cases h5 : w.prData.user_id != dependabotUserId with
            | true => simp_all
            | false =>
              cases hcp : configPhase w.content w.decode pr.head_ref
                  (hasStewardComment w) pr.number with
              | halt v cs => simp_all
              | cont =>
                cases ha : aggregate w.suites w.branchRules with
                | pending => simp_all
                | fail => simp_all
                | pass =>
                  cases hz : pr.number == 0 with
                  | true => simp_all
                  | false =>
                    cases has : w.approveSucceeds with
                    | false => simp_all
                    | true =>
                      refine ⟨pr, mm, ?_, ?_, ?_, ?_, ?_, ?_, ?_, ?_, ?_,
                        ?_, ?_⟩ <;> simp_all



/-- A passing inner verdict issues no calls. -/
lemma processMergeFn_pass_calls (w : World)
    (h : (processMergeFn w).verdict = .pass) : (processMergeFn w).calls = [] := by
  unfold processMergeFn at h ⊢
  cases hl : w.pull_requests.getLast? with
  | none => simp_all
  | some pr =>
    cases h2 : pr.base_repo_id != pr.head_repo_id with
    | true => simp_all
    | false =>
      cases h3 : stewardReviewExists w with
      | true => simp_all
      | false =>
        cases h4 : w.prData.merged with
        | true => simp_all
        | false =>
          cases h5 : w.prData.user_id != dependabotUserId with
          | true => simp_all
          | false =>
            cases hcp : configPhase w.content w.decode pr.head_ref
                (hasStewardComment w) pr.number with
            | halt v cs => simp_all
            | cont => cases ha : aggregate w.suites w.branchRules <;> simp_all

/-- The outer `pull_number` variable is `none` or the popped PR's number. -/
lemma processMergeFn_pull_number (w : World) :
    (processMergeFn w).pull_number = none ∨
      (∃ pr, w.pull_requests.getLast? = some pr ∧
        (processMergeFn w).pull_number = some pr.number) := by
  unfold processMergeFn
  cases hl : w.pull_requests.getLast? with
  | none => exact Or.inl rfl
  | some pr =>
    cases h2 : pr.base_repo_id != pr.head_repo_id with
    | true => exact Or.inl (by simp_all)
    | false =>
      right
      refine ⟨pr, rfl, ?_⟩
      cases h3 : stewardReviewExists w with
      | true => simp_all
      | false =>
        cases h4 : w.prData.merged with
        | true => simp_all
        | false =>
          cases h5 : w.prData.user_id != dependabotUserId with
          | true => simp_all
          | false =>
            cases hcp : configPhase w.content w.decode pr.head_ref
                (hasStewardComment w) pr.number with
            | halt v cs => simp_all
            | cont => cases ha : aggregate w.suites w.branchRules <;> simp_all

/-- The handler's calls are the inner IIFE's calls plus a non-comment tail
(the approving review, and on success the merge), or nothing at all when the
merge-method resolution throws first. -/
lemma stewardEval_calls_shape (w : World) :
    (stewardEval w).calls = [] ∨
      ∃ tail, (stewardEval w).calls = (processMergeFn w).calls ++ tail
        ∧ (∀ c ∈ tail, isCommentCall c = false)
        ∧ (∀ c ∈ tail,
            (processMergeFn w).pull_number = some (callNumber c)) := by
  unfold stewardEval
  cases hm : resolveMergeMethod w.repoMeta with
  | none => exact Or.inl rfl
  | some mm =>
    right
    cases hv : (processMergeFn w).verdict with
    | vetoed v => exact ⟨[], by simp [hv], by simp, by simp⟩
    | pass =>
      cases hp : (processMergeFn w).pull_number with
      | none => exact ⟨[], by simp [hv, hp], by simp, by simp⟩
      | some pn =>
        cases hz : pn == 0 with
        | true => exact ⟨[], by simp [hv, hp, hz], by simp, by simp⟩
        | false =>
          cases has : w.approveSucceeds with
          | true =>
            exact ⟨[.createReview pn, .mergePR pn mm],
              by simp [hv, hp, hz, has], by simp [isCommentCall],
              by simp [hp, callNumber]⟩
          | false =>
            exact ⟨[.createReview pn], by simp [hv, hp, hz, has],
              by simp [isCommentCall], by simp [hp, callNumber]⟩

/-- The selected merge method is the first-true of the three capability
flags, in the order merge, squash, rebase. -/
lemma resolveMergeMethod_eq (meta : RepoMetadata) (mm : MergeMethod)
    (h : resolveMergeMethod meta = some mm) :
    mm = (if meta.allow_merge_commit = true then MergeMethod.merge
      else if meta.allow_squash_merge = true then MergeMethod.squash
      else MergeMethod.rebase) := by
  unfold resolveMergeMethod at h
  split_ifs at h <;> simp_all

/-- If a steward comment already exists, the handler posts no comment. -/
lemma no_comment_of_hasComment (w : World) (h : hasStewardComment w = true) :
    (stewardEval w).calls.filter isCommentCall = [] := by
  rcases stewardEval_calls_shape w with h0 | ⟨tail, hsh, htail, -⟩
  · rw [h0]; rfl
  · rw [hsh, List.filter_append]
    rcases processMergeFn_calls w with hc | ⟨hfalse, _, _, _⟩
    · rw [hc]
      simp only [List.filter_nil, List.nil_append]
      rw [List.filter_eq_nil_iff]
      intro c hcmem
      simp [htail c hcmem]
    · simp_all

/-- Applying calls never removes an existing steward comment. -/
lemma hasStewardComment_mono (cs : List Call) (w : World)
    (h : hasStewardComment w = true) :
    hasStewardComment (applyCalls w cs) = true := by
  induction cs generalizing w with
  | nil => exact h
  | cons c t ih =>
    show hasStewardComment (applyCalls (applyCall w c) t) = true
    apply ih
    cases c with
    | createComment pn b => simp [applyCall, hasStewardComment]
    | createReview pn => simpa [applyCall, hasStewardComment] using h
    | mergePR pn m =>
      cases hms : w.mergeSucceeds <;>
        simpa [applyCall, hasStewardComment, hms] using h

/-- After applying a call list containing a comment creation, a steward
comment exists. -/
lemma comment_in_calls_applied (cs : List Call) (w : World)
    (h : ∃ pn b, Call.createComment pn b ∈ cs) :
    hasStewardComment (applyCalls w cs) = true := by
  induction cs generalizing w with
  | nil => obtain ⟨_, _, h⟩ := h; simp at h
  | cons c t ih =>
    obtain ⟨pn, b, hmem⟩ := h
    show hasStewardComment (applyCalls (applyCall w c) t) = true
    rcases List.mem_cons.mp hmem with heq | hmem'
    · apply hasStewardComment_mono
      rw [← heq]
      simp [applyCall, hasStewardComment]
    · exact ih (applyCall w c) ⟨pn, b, hmem'⟩

/-- The code's per-suite collection of passed run names, flattened, equals
the flat list of passed run names drawn from the valid suites. -/
lemma passedNames_eq (ls : List CheckSuite) :
    (ls.map (fun vs =>
      (vs.check_runs.filter (fun cr => passedConclusion cr.conclusion)).map
        (fun cr => cr.name))).flatten = passedNames ls := by
  induction ls with
  | nil => rfl
  | cons s t ih =>
    simp only [List.map_cons, List.flatten_cons, passedNames, List.flatMap_cons,
      List.filter_append, List.map_append] at ih ⊢
    rw [ih]

/-- C2 (amended): the code's check-status aggregation equals the reference
definition with the Pending test placed before the no-required-rule test. -/
theorem c2_aggregation_amended (suites : SuitesResponse)
    (rules : List BranchRule) :
    aggregate suites rules = aggregateAmendedRef suites rules := by
  simp only [aggregate, aggregateAmendedRef]
  rw [passedNames_eq]
  split_ifs <;> simp_all
  all_goals
    obtain ⟨x, hx1, hx2⟩ :=
      ‹∃ x ∈ suites.check_suites, ¬x.latest_check_runs_count = 0›
  all_goals
    exact hx2
      (‹∀ a ∈ suites.check_suites, a.latest_check_runs_count = 0› x hx1)

/-- C2 (counterexample): for one valid but still in-progress suite and no
required-status-check rules, the code blocks the merge (Pending) while the
claim's reference definition, read in the order its clauses are written,
yields Pass. -/
theorem c2_counterexample :
    aggregate ⟨1, [⟨"in_progress", 1, []⟩]⟩ [] = AggOutcome.pending
    ∧ aggregateClaim ⟨1, [⟨"in_progress", 1, []⟩]⟩ [] = AggOutcome.pass
    ∧ aggregate ⟨1, [⟨"in_progress", 1, []⟩]⟩ []
        ≠ aggregateClaim ⟨1, [⟨"in_progress", 1, []⟩]⟩ [] := by decide

/-- C9: the repository-metadata fetch and merge-method resolution precede the
guard chain, so a repository allowing none of the three merge methods makes
every evaluation fail fatally with no calls, whatever the rest of the world
looks like (in particular with no attached pull request). -/
theorem c9_merge_method_before_guards (w : World)
    (h1 : w.repoMeta.allow_merge_commit = false)
    (h2 : w.repoMeta.allow_squash_merge = false)
    (h3 : w.repoMeta.allow_rebase_merge = false) :
    stewardEval w = ⟨.fatal .noAllowedMergeMethod, []⟩ := by
  unfold stewardEval resolveMergeMethod
  simp [h1, h2, h3]

/-- Witness for C9: a concrete no-merge-method repository with an empty
`pull_requests` payload still fails fatally before any guard. -/
theorem c9_merge_method_before_guards_witness :
    stewardEval noMethodWorld = ⟨.fatal .noAllowedMergeMethod, []⟩
    ∧ noMethodWorld.pull_requests = [] :=
  ⟨c9_merge_method_before_guards noMethodWorld rfl rfl rfl, rfl⟩

/-- C3 (amended): a configuration-fetch error that is neither 404 nor a
schema error, and the ecosystem-classification miss, are both caught by the
handler's catch-all branch: the evaluation completes with a logged skip
(a veto, no calls) instead of propagating. -/
theorem c3_swallowed_errors (w : World) (pr : PayloadPR) (mm : MergeMethod)
    (hmm : resolveMergeMethod w.repoMeta = some mm)
    (hl : w.pull_requests.getLast? = some pr)
    (h2 : (pr.base_repo_id != pr.head_repo_id) = false)
    (h3 : stewardReviewExists w = false)
    (h4 : w.prData.merged = false)
    (h5 : (w.prData.user_id != dependabotUserId) = false) :
    (w.content = .httpOther →
      stewardEval w = ⟨.vetoed .caughtError, []⟩)
    ∧ (∀ j c v eo, w.content = .data j →
        repoContentParse j = some ("file", c) →
        w.decode (stripNewlines c) = .value v →
        getPropNullable v "enable" = some eo →
        eo.any (fun y => !yamlTruthy y) = false →
        ecosystems.find? (fun e => jsIncludes pr.head_ref e) = none →
        stewardEval w = ⟨.vetoed .caughtError, []⟩) := by
  constructor
  · intro hco
    unfold stewardEval processMergeFn configPhase
    simp [hmm, hl, h2, h3, h4, h5, hco]
  · intro j c v eo hco hparse hdec hen htr hfind
    unfold stewardEval processMergeFn configPhase
    simp [hmm, hl, h2, h3, h4, h5, hco, hparse, hdec, hen, htr, hfind]

/-- Witness for C3's amended statement at two concrete worlds: a non-404
fetch error, and a head branch matching no catalog ecosystem. -/
theorem c3_swallowed_errors_witness :
    stewardEval fetchErrorWorld = ⟨.vetoed .caughtError, []⟩
    ∧ stewardEval ecosystemMissWorld = ⟨.vetoed .caughtError, []⟩ := by
  constructor
  · exact (c3_swallowed_errors fetchErrorWorld
      ⟨1, "dependabot/npm_and_yarn/foo", 10, "main", 10⟩ MergeMethod.merge
      rfl rfl rfl rfl rfl rfl).1 rfl
  · exact (c3_swallowed_errors ecosystemMissWorld
      ⟨1, "update-stuff", 10, "main", 10⟩ MergeMethod.merge
      rfl rfl rfl rfl rfl rfl).2 fileJson "Zm9v" (.map []) none
      rfl rfl rfl rfl rfl (by decide)

/-- C3 (counterexample): at these concrete worlds the claim's "propagates to
the caller and aborts" is false — both evaluations complete normally with a
caught, logged skip and no fatal outcome. -/
theorem c3_counterexample :
    (stewardEval fetchErrorWorld).outcome = Outcome.vetoed Veto.caughtError
    ∧ (stewardEval fetchErrorWorld).outcome
        ≠ Outcome.fatal Fatal.noAllowedMergeMethod
    ∧ (stewardEval fetchErrorWorld).outcome
        ≠ Outcome.fatal Fatal.pullNumberUndefined
    ∧ (stewardEval fetchErrorWorld).outcome ≠ Outcome.fatal Fatal.approveFailed
    ∧ (stewardEval ecosystemMissWorld).outcome
        = Outcome.vetoed Veto.caughtError := by decide

/-- Like `happyWorld` but `GET .../contents/.steward.yml` returns an array (a
directory listing), which fails `RepoContentSchema.parse`. -/
def notFileWorld : World :=
  { happyWorld with content := .data (.arr []) }

/-- C4 (counterexample): with a present `.steward.yml` whose parsed document
has the non-boolean `enable: "yes"`, the evaluation does not veto — it
approves and merges — and never posts a comment worded "Configuration
invalid. Please check `.steward.yml`.". -/
theorem c4_counterexample :
    (stewardEval happyWorld).outcome = Outcome.allowed
    ∧ (stewardEval happyWorld).calls
        = [Call.createReview 1, Call.mergePR 1 MergeMethod.merge]
    ∧ Call.createComment 1 "Configuration invalid. Please check `.steward.yml`."
        ∉ (stewardEval happyWorld).calls := by decide

/-- C4 (amended): the handler performs no schema validation of the YAML
document.  Every comment it can post is the "must be a file" advisory, so
the claimed SchemaError comment wording is never produced; and a present
file whose top-level document is a (non-mapping) string is treated like the
empty configuration — the config region falls through. -/
theorem c4_no_schema_validation (w : World) :
    (∀ pn b, Call.createComment pn b ∈ (stewardEval w).calls →
      b = notAFileBody)
    ∧ (∀ (dec : String → DecodeOutcome) (hb : String) (hc : Bool) (pn : Nat)
        (j : Json) (c s eco : String),
        repoContentParse j = some ("file", c) →
        dec (stripNewlines c) = DecodeOutcome.value (.str s) →
        ecosystems.find? (fun e => jsIncludes hb e) = some eco →
        configPhase (.data j) dec hb hc pn = .cont) := by
  constructor
  · intro pn b hmem
    rcases stewardEval_calls_shape w with h0 | ⟨tail, hsh, htail, -⟩
    · rw [h0] at hmem
      simp at hmem
    · rw [hsh] at hmem
      rcases List.mem_append.mp hmem with hin | hin
      · rcases processMergeFn_calls w with hcl | ⟨_, pr, _, hcl⟩ <;>
          rw [hcl] at hin <;> simp at hin
        exact hin.2
      · have := htail _ hin
        simp [isCommentCall] at this
  · intro dec hb hc pn j c s eco hparse hdec hfind
    unfold configPhase
    simp [hparse, hdec, hfind, getPropNullable, getProp]

/-- Witness for C4's amended statement: the only postable advisory wording,
exercised on a world that does post it, and the string-document fall-through
at a concrete configuration. -/
theorem c4_no_schema_validation_witness :
    notAFileBody = "Configuration invalid: `.steward.yml` must be a file."
    ∧ configPhase (.data fileJson) (fun _ => DecodeOutcome.value (.str "oops"))
        "dependabot/npm_and_yarn/foo" false 1 = ConfigStep.cont := by
  constructor
  · exact (c4_no_schema_validation notFileWorld).1 1 notAFileBody (by decide)
  · exact (c4_no_schema_validation notFileWorld).2
      (fun _ => DecodeOutcome.value (.str "oops")) "dependabot/npm_and_yarn/foo"
      false 1 fileJson "Zm9v" "oops" "npm_and_yarn" rfl rfl (by decide)

/-- C5 (amended): replaying the same all-conditions-satisfied event after a
successful approve-and-merge short-circuits at the AlreadyReviewed guard —
the steward's own approving review now exists and is checked before the
merged flag — with no new calls. -/
theorem c5_replay_already_reviewed (w : World)
    (h : (stewardEval w).outcome = Outcome.allowed)
    (hm : w.mergeSucceeds = true) :
    stewardEval (applyCalls w (stewardEval w).calls) =
      ⟨Outcome.vetoed Veto.alreadyReviewed, []⟩ := by
  obtain ⟨pr, mm, hmres, hl, h2, h3, h4, h5, hcp, ha, hz, has, heval⟩ :=
    stewardEval_allowed w h
  rw [heval]
  have h3' : (w.reviews.any fun r => r.user_id == some stewardUserId) = false := h3
  simp [applyCalls, applyCall, hm, stewardEval, processMergeFn,
    stewardReviewExists, hmres, hl, h2, List.any_append, h3']

/-- Witness for C5's amended statement at the concrete all-pass world. -/
theorem c5_replay_already_reviewed_witness :
    stewardEval (applyCalls happyWorld (stewardEval happyWorld).calls) =
      ⟨Outcome.vetoed Veto.alreadyReviewed, []⟩ :=
  c5_replay_already_reviewed happyWorld (by decide) rfl

/-- C5 (counterexample): after a successful approve-and-merge of the
all-pass world, the replay terminates with AlreadyReviewed, not with the
claimed AlreadyMerged. -/
theorem c5_counterexample :
    (stewardEval happyWorld).outcome = Outcome.allowed
    ∧ happyWorld.mergeSucceeds = true
    ∧ (stewardEval (applyCalls happyWorld (stewardEval happyWorld).calls)).outcome
        = Outcome.vetoed Veto.alreadyReviewed
    ∧ (stewardEval (applyCalls happyWorld (stewardEval happyWorld).calls)).outcome
        ≠ Outcome.vetoed Veto.alreadyMerged := by decide

/-- C6: if no merge method is allowed the evaluation fails fatally with no
calls (before any review or merge); and any merge call the handler makes
uses the method selected from the capability flags by first-true priority
merge, then squash, then rebase. -/
theorem c6_merge_method (w : World) :
    ((w.repoMeta.allow_merge_commit = false
        ∧ w.repoMeta.allow_squash_merge = false
        ∧ w.repoMeta.allow_rebase_merge = false) →
      stewardEval w = ⟨.fatal .noAllowedMergeMethod, []⟩)
    ∧ (∀ pn m, Call.mergePR pn m ∈ (stewardEval w).calls →
        resolveMergeMethod w.repoMeta = some m
        ∧ m = (if w.repoMeta.allow_merge_commit = true then MergeMethod.merge
            else if w.repoMeta.allow_squash_merge = true then MergeMethod.squash
            else MergeMethod.rebase)) := by
  constructor
  · rintro ⟨ha, hb, hc⟩
    unfold stewardEval resolveMergeMethod
    simp [ha, hb, hc]
  · intro pn m hmem
    unfold stewardEval at hmem
    cases hmres : resolveMergeMethod w.repoMeta with
    | none => rw [hmres] at hmem; simp at hmem
    | some mm =>
      rw [hmres] at hmem
      have hm_eq : m = mm := by
        cases hv : (processMergeFn w).verdict with
        | vetoed v =>
          simp only [hv] at hmem
          rcases processMergeFn_calls w with hcl | ⟨_, pr, _, hcl⟩ <;>
            rw [hcl] at hmem <;> simp at hmem
        | pass =>
          have hic := processMergeFn_pass_calls w hv
          cases hp : (processMergeFn w).pull_number with
          | none => simp only [hv, hp] at hmem; rw [hic] at hmem; simp at hmem
          | some pn' =>
            cases hz : pn' == 0 with
            | true =>
              simp only [hv, hp, hz] at hmem
              rw [hic] at hmem; simp at hmem
            | false =>
              cases hs : w.approveSucceeds with
              | true =>
                simp only [hv, hp, hz, hs] at hmem
                rw [hic] at hmem; simp at hmem
                exact hmem.2
              | false =>
                simp only [hv, hp, hz, hs] at hmem
                rw [hic] at hmem; simp at hmem
      subst hm_eq
      exact ⟨rfl, resolveMergeMethod_eq w.repoMeta m hmres⟩

/-- Witness for C6: a no-method repository fails fatally, and the concrete
all-pass world merges with the merge-commit method. -/
theorem c6_merge_method_witness :
    stewardEval noMethodWorld = ⟨.fatal .noAllowedMergeMethod, []⟩
    ∧ (resolveMergeMethod happyWorld.repoMeta = some MergeMethod.merge
      ∧ MergeMethod.merge =
          (if happyWorld.repoMeta.allow_merge_commit = true then MergeMethod.merge
           else if happyWorld.repoMeta.allow_squash_merge = true then
             MergeMethod.squash
           else MergeMethod.rebase)) :=
  ⟨(c6_merge_method noMethodWorld).1 ⟨rfl, rfl, rfl⟩,
   (c6_merge_method happyWorld).2 1 MergeMethod.merge (by decide)⟩

/-- Like `notFileWorld` but a steward-authored comment already exists on the pull
request. -/
def commentedWorld : World :=
  { notFileWorld with comments := [⟨some stewardUserId⟩] }

/-- Like `happyWorld` but the approving-review call fails. -/
def approveFailWorld : World :=
  { happyWorld with approveSucceeds := false }

/-- C7: if a steward-authored comment exists, no comment is posted; a single
evaluation posts at most one comment; and once an evaluation has posted one,
re-running the evaluation on the resulting world posts none. -/
theorem c7_comment_dedup (w : World) :
    (hasStewardComment w = true →
      (stewardEval w).calls.filter isCommentCall = [])
    ∧ ((stewardEval w).calls.filter isCommentCall).length ≤ 1
    ∧ ((stewardEval w).calls.filter isCommentCall ≠ [] →
        (stewardEval (applyCalls w (stewardEval w).calls)).calls.filter
          isCommentCall = []) := by
  refine ⟨no_comment_of_hasComment w, ?_, ?_⟩
  · rcases stewardEval_calls_shape w with h0 | ⟨tail, hsh, htail, -⟩
    · rw [h0]; simp
    · rw [hsh, List.filter_append]
      have htail0 : tail.filter isCommentCall = [] := by
        rw [List.filter_eq_nil_iff]
        intro c hc
        simp [htail c hc]
      rw [htail0]
      rcases processMergeFn_calls w with hcl | ⟨_, pr, _, hcl⟩ <;> rw [hcl] <;>
        simp [isCommentCall]
  · intro hne
    apply no_comment_of_hasComment
    apply comment_in_calls_applied
    obtain ⟨c, hcmem⟩ := List.exists_mem_of_ne_nil _ hne
    have hcm := List.mem_filter.mp hcmem
    cases c with
    | createComment pn b => exact ⟨pn, b, hcm.1⟩
    | createReview pn => simp [isCommentCall] at hcm
    | mergePR pn m => simp [isCommentCall] at hcm

/-- Witness for C7: with an existing steward comment nothing is posted, and
re-running after the advisory comment was posted posts nothing new. -/
theorem c7_comment_dedup_witness :
    (stewardEval commentedWorld).calls.filter isCommentCall = []
    ∧ (stewardEval (applyCalls notFileWorld
        (stewardEval notFileWorld).calls)).calls.filter isCommentCall = [] :=
  ⟨(c7_comment_dedup commentedWorld).1 rfl,
   (c7_comment_dedup notFileWorld).2.2 (by decide)⟩

/-- When all seven guards pass, the inner IIFE returns a pass verdict with
the popped pull request's number and no calls. -/
lemma processMergeFn_pass_of (w : World) (pr : PayloadPR)
    (hl : w.pull_requests.getLast? = some pr)
    (h2 : (pr.base_repo_id != pr.head_repo_id) = false)
    (h3 : stewardReviewExists w = false)
    (h4 : w.prData.merged = false)
    (h5 : (w.prData.user_id != dependabotUserId) = false)
    (hcp : configPhase w.content w.decode pr.head_ref (hasStewardComment w)
        pr.number = .cont)
    (ha : aggregate w.suites w.branchRules = .pass) :
    processMergeFn w = ⟨.pass, some pr.number, []⟩ := by
  unfold processMergeFn
  simp [hl, h2, h3, h4, h5, hcp, ha]

/-- C8: an allow outcome submits exactly the approving review followed by the
merge; a failed approval never reaches a merge call and propagates as the
fatal `approveFailed` outcome whenever the run would otherwise have merged;
and the result of the evaluation is unchanged by whether the merge call
succeeds (merge failure is caught, not propagated). -/
theorem c8_approve_then_merge (w : World) :
    ((stewardEval w).outcome = Outcome.allowed →
      w.approveSucceeds = true
      ∧ ∃ pn m, (stewardEval w).calls
          = [Call.createReview pn, Call.mergePR pn m])
    ∧ (w.approveSucceeds = false →
        ∀ pn m, Call.mergePR pn m ∉ (stewardEval w).calls)
    ∧ ((stewardEval { w with approveSucceeds := true }).outcome
          = Outcome.allowed →
        w.approveSucceeds = false →
        (stewardEval w).outcome = Outcome.fatal Fatal.approveFailed)
    ∧ (∀ b, stewardEval { w with mergeSucceeds := b } = stewardEval w) := by
  refine ⟨?_, ?_, ?_, fun b => rfl⟩
  · intro h
    obtain ⟨pr, mm, _, _, _, _, _, _, _, _, _, has, heval⟩ :=
      stewardEval_allowed w h
    exact ⟨has, pr.number, mm, by rw [heval]⟩
  · intro hfail pn m hmem
    unfold stewardEval at hmem
    cases hmres : resolveMergeMethod w.repoMeta with
    | none => rw [hmres] at hmem; simp at hmem
    | some mm =>
      rw [hmres] at hmem
      cases hv : (processMergeFn w).verdict with
      | vetoed v =>
        simp only [hv] at hmem
        rcases processMergeFn_calls w with hcl | ⟨_, pr, _, hcl⟩ <;>
          rw [hcl] at hmem <;> simp at hmem
      | pass =>
        have hic := processMergeFn_pass_calls w hv
        cases hp : (processMergeFn w).pull_number with
        | none =>
          simp only [hv, hp] at hmem
          rw [hic] at hmem; simp at hmem
        | some pn' =>
          cases hz : pn' == 0 with
          | true =>
            simp only [hv, hp, hz] at hmem
            rw [hic] at hmem; simp at hmem
          | false =>
            simp only [hv, hp, hz, hfail] at hmem
            rw [hic] at hmem; simp at hmem
  · intro hable hfail
    obtain ⟨pr, mm, hmres, hl, h2, h3, h4, h5, hcp, ha, hz, -, -⟩ :=
      stewardEval_allowed { w with approveSucceeds := true } hable
    have hmres2 : resolveMergeMethod w.repoMeta = some mm := hmres
    have hw : processMergeFn w = ⟨.pass, some pr.number, []⟩ :=
      processMergeFn_pass_of w pr hl h2 h3 h4 h5 hcp ha
    have hz2 : (pr.number == 0) = false := hz
    unfold stewardEval
    rw [hmres2, hw]
    simp [hz2, hfail]

/-- Witness for C8 at concrete worlds: a successful run approves, a failed
approval never merges and propagates as the fatal `approveFailed` outcome,
and merge failure leaves the evaluation unchanged. -/
theorem c8_approve_then_merge_witness :
    happyWorld.approveSucceeds = true
    ∧ Call.mergePR 1 MergeMethod.merge ∉ (stewardEval approveFailWorld).calls
    ∧ (stewardEval approveFailWorld).outcome
        = Outcome.fatal Fatal.approveFailed
    ∧ stewardEval { happyWorld with mergeSucceeds := false }
        = stewardEval happyWorld :=
  ⟨((c8_approve_then_merge happyWorld).1 (by decide)).1,
   (c8_approve_then_merge approveFailWorld).2.1 rfl 1 MergeMethod.merge,
   (c8_approve_then_merge approveFailWorld).2.2.1 (by decide) rfl,
   (c8_approve_then_merge happyWorld).2.2.2 false⟩

/-- Like `happyWorld` but with a second, earlier pull request in the payload list. -/
def twoPRWorld : World :=
  { happyWorld with pull_requests :=
      [⟨7, "other-branch", 99, "dev", 98⟩,
       ⟨1, "dependabot/npm_and_yarn/foo", 10, "main", 10⟩] }

/-- C10: `pull_requests.pop()` evaluates only the last attached pull request:
every call the handler makes addresses the last element's number, and any
payload list with the same last element produces the identical evaluation. -/
theorem c10_last_pr_only (w : World) :
    (∀ pr, w.pull_requests.getLast? = some pr →
      ∀ c ∈ (stewardEval w).calls, callNumber c = pr.number)
    ∧ (∀ l : List PayloadPR, l.getLast? = w.pull_requests.getLast? →
        stewardEval { w with pull_requests := l } = stewardEval w) := by
  constructor
  · intro pr hl c hmem
    rcases stewardEval_calls_shape w with h0 | ⟨tail, hsh, htail, hnum⟩
    · rw [h0] at hmem
      simp at hmem
    · rw [hsh] at hmem
      rcases List.mem_append.mp hmem with hin | hin
      · rcases processMergeFn_calls w with hcl | ⟨_, pr', hl', hcl⟩
        · rw [hcl] at hin; simp at hin
        · rw [hcl] at hin
          simp at hin
          rw [hl'] at hl
          cases hl
          rw [hin]
          rfl
      · have hpn := hnum c hin
        rcases processMergeFn_pull_number w with hq | ⟨pr', hl', hq⟩
        · rw [hq] at hpn; cases hpn
        · rw [hl'] at hl
          cases hl
          rw [hq] at hpn
          exact (Option.some.injEq _ _ ▸ hpn).symm
  · intro l hgl
    simp only [stewardEval, processMergeFn, stewardReviewExists,
      hasStewardComment, hgl]

/-- Witness for C10: with two attached pull requests only the last (number 1)
is addressed, and dropping the earlier one changes nothing. -/
theorem c10_last_pr_only_witness :
    callNumber (Call.createReview 1) = 1
    ∧ stewardEval { twoPRWorld with pull_requests :=
        [⟨1, "dependabot/npm_and_yarn/foo", 10, "main", 10⟩] }
      = stewardEval twoPRWorld :=
  ⟨(c10_last_pr_only twoPRWorld).1
      ⟨1, "dependabot/npm_and_yarn/foo", 10, "main", 10⟩ rfl
      (Call.createReview 1) (by decide),
   (c10_last_pr_only twoPRWorld).2
      [⟨1, "dependabot/npm_and_yarn/foo", 10, "main", 10⟩] rfl⟩

/-- Like `happyWorld` but the payload pull request comes from a fork (different
head and base repository ids). -/
def forkWorld : World :=
  { happyWorld with pull_requests :=
      [⟨1, "dependabot/npm_and_yarn/foo", 11, "main", 10⟩] }

/-- C1: whenever the evaluation vetoes, the veto belongs to the first failing
guard of the spec's ordered seven-guard table and no approving-review or
merge call was made; conversely, whenever some guard fails (and the
merge-method resolution does not throw first), the evaluation vetoes with
that first failing guard. -/
theorem c1_guard_order (w : World) (mm : MergeMethod)
    (hmm : resolveMergeMethod w.repoMeta = some mm) :
    (∀ v, (stewardEval w).outcome = Outcome.vetoed v →
      firstFailingGuard w = some (vetoGuard v)
      ∧ ∀ c ∈ (stewardEval w).calls, isReviewOrMerge c = false)
    ∧ (∀ i, firstFailingGuard w = some i →
      ∃ v, (stewardEval w).outcome = Outcome.vetoed v ∧ vetoGuard v = i) := by
  have hbridge : ∀ v, ((stewardEval w).outcome = Outcome.vetoed v ↔
      (processMergeFn w).verdict = InnerVerdict.vetoed v) := by
    intro v
    unfold stewardEval
    rw [hmm]
    cases hv : (processMergeFn w).verdict with
    | vetoed v' => simp [hv]
    | pass =>
      cases hp : (processMergeFn w).pull_number with
      | none => simp [hv, hp]
      | some pn =>
        cases hz : pn == 0 <;> cases has : w.approveSucceeds <;>
          simp [hv, hp, hz, has]
  have hcalls : ∀ v, (processMergeFn w).verdict = InnerVerdict.vetoed v →
      (stewardEval w).calls = (processMergeFn w).calls := by
    intro v hv
    unfold stewardEval
    rw [hmm]
    simp [hv]
  constructor
  · intro v h
    have hv := (hbridge v).mp h
    refine ⟨?_, ?_⟩
    · rw [firstFailingGuard_eq w, hv]
    · intro c hc
      rw [hcalls v hv] at hc
      rcases processMergeFn_calls w with hcl | ⟨_, pr, _, hcl⟩ <;>
        rw [hcl] at hc
      · simp at hc
      · simp at hc
        rw [hc]
        rfl
  · intro i hi
    rw [firstFailingGuard_eq w] at hi
    cases hv : (processMergeFn w).verdict with
    | pass => rw [hv] at hi; simp at hi
    | vetoed v =>
      rw [hv] at hi
      simp at hi
      exact ⟨v, (hbridge v).mpr hv, hi⟩

/-- Witness for C1 at a concrete fork pull request: the evaluation vetoes
with ForkPR, guard 2 is the first failing guard, and no calls are made. -/
theorem c1_guard_order_witness :
    firstFailingGuard forkWorld = some (vetoGuard Veto.forkPR)
    ∧ (stewardEval forkWorld).outcome = Outcome.vetoed Veto.forkPR
    ∧ (stewardEval forkWorld).calls = [] :=
  ⟨((c1_guard_order forkWorld MergeMethod.merge rfl).1 Veto.forkPR
      (by decide)).1,
   by decide, by decide⟩

end Steward
